import Mathlib

/-!
Shallow embedding of `src/src/components/DesignManager.tsx`.

The component persists a unified settings object as two key/value rows of the
`server_settings` table (`design_settings` and `general_settings`), merges the
two rows back into one object on load, installs a user-supplied CSS override
into the live document, and validates image uploads before invoking the blob
store.  JS records are modelled as functions `String → Option String`; `none`
stands for an absent key (JS `undefined` assigned to a property is also
modelled as `none`, since serialization drops it).
-/

namespace DesignManager

/-- A JS-style record with string-valued fields; `none` models an absent key. -/
def Obj : Type := String → Option String

/-- The empty record `{}`. -/
def emptyObj : Obj := fun _ => none

/-- Model of `Object.assign(target, src)`: every key present in `src` overrides
`target`; keys absent from `src` keep the value of `target`. -/
def objAssign (target src : Obj) : Obj := fun k =>
  match src k with
  | some v => some v
  | none => target k

/-- JS truthiness of an optional string field: an absent field and the empty
string are falsy, any other string is truthy. -/
def truthy : Option String → Bool
  | none => false
  | some v => v != ""

/-! ## Load path (`fetchDesignSettings`, lines 40–69)

The fetch selects `setting_key, setting_value` for the two keys; the rows come
back in unspecified order.  The `forEach` folds them into an initially empty
settings object: a `design_settings` row is merged with `Object.assign`, a
`general_settings` row assigns exactly `settings.server_name` and
`settings.welcome_message` from the row value. -/

/-- One iteration of the `data?.forEach` loop in `fetchDesignSettings`. -/
def mergeStep (settings : Obj) (doc : String × Obj) : Obj :=
  if doc.1 = "design_settings" then
    objAssign settings doc.2
  else if doc.1 = "general_settings" then
    fun k =>
      if k = "server_name" then doc.2 "server_name"
      else if k = "welcome_message" then doc.2 "welcome_message"
      else settings k
  else settings

/-- Folding all fetched rows, in arrival order, into the empty object. -/
def mergeData (data : List (String × Obj)) : Obj :=
  data.foldl mergeStep emptyObj

/-- The function `fetchDesignSettings`: a fetch error is rethrown (caught as a load
failure); otherwise the returned rows are merged.  An absent row is simply not
in the list and contributes nothing. -/
def fetchDesignSettings (fetched : Except String (List (String × Obj))) :
    Except String Obj :=
  match fetched with
  | .error e => .error e
  | .ok data => .ok (mergeData data)

/-! ## Save path (`saveDesignSettings`, lines 132–185) -/

/-- The spread copy of the settings object followed by `delete designData.server_name` and
`delete designData.welcome_message`. -/
def designDoc (s : Obj) : Obj := fun k =>
  if k = "server_name" ∨ k = "welcome_message" then none else s k

/-- The object literal `{ server_name: s.server_name, welcome_message:
s.welcome_message }` (an `undefined` source field yields an absent key after
serialization). -/
def generalDoc (s : Obj) : Obj := fun k =>
  if k = "server_name" then s "server_name"
  else if k = "welcome_message" then s "welcome_message"
  else none

/-- One row handed to the upsert call on the `server_settings` table. -/
structure UpsertRow where
  setting_key : String
  setting_value : Obj
  updated_at : Nat

/-- The upserts issued by `saveDesignSettings`: the design row always, the
general row only when `designSettings.server_name ||
designSettings.welcome_message` is truthy. -/
def saveUpserts (s : Obj) (now : Nat) : List UpsertRow :=
  { setting_key := "design_settings", setting_value := designDoc s,
    updated_at := now } ::
  (if truthy (s "server_name") || truthy (s "welcome_message") then
    [{ setting_key := "general_settings", setting_value := generalDoc s,
       updated_at := now }]
  else [])

/-- The `server_settings` table: one optional row per key. -/
def SettingsStore : Type := String → Option (Obj × Nat)

/-- A store with no rows. -/
def emptyStore : SettingsStore := fun _ => none

/-- Upsert-by-key: each row replaces the stored row with its key. -/
def applyUpserts (store : SettingsStore) (rows : List UpsertRow) : SettingsStore :=
  rows.foldl
    (fun st r => fun k =>
      if k = r.setting_key then some (r.setting_value, r.updated_at) else st k)
    store

/-- The rows a fetch returns: for each key of `keys` (the arrival order of the
result set) the stored `(setting_key, setting_value)` pair, if the row exists. -/
def fetchDocs (store : SettingsStore) (keys : List String) : List (String × Obj) :=
  keys.filterMap (fun k => (store k).map (fun v => (k, v.1)))

/-! ## Style applicator (`updateCustomCSS`, lines 187–201) -/

/-- A `<style>` element: its `id` attribute and its `textContent`. -/
structure StyleEl where
  elId : String
  content : String
deriving DecidableEq

/-- The fixed identifier `custom-design-css`. -/
def customCssId : String := "custom-design-css"

/-- JS `String.prototype.trim`: strip leading and trailing whitespace
(modelled over the character list so that it evaluates by reduction). -/
def jsTrim (s : String) : String :=
  String.mk ((((s.data.dropWhile Char.isWhitespace).reverse).dropWhile
    Char.isWhitespace).reverse)

/-- Model of `document.getElementById(i)` followed by `.remove()`: drops the first
element with the given id, if any. -/
def removeFirstWithId : List StyleEl → String → List StyleEl
  | [], _ => []
  | e :: rest, i => if e.elId == i then rest else e :: removeFirstWithId rest i

/-- The function `updateCustomCSS`: remove the existing override element, then, only if the
trimmed text is non-empty, append a fresh style element carrying the fixed
identifier and the literal text. -/
def updateCustomCSS (css : String) (dom : List StyleEl) : List StyleEl :=
  let removed := removeFirstWithId dom customCssId
  if jsTrim css != "" then
    removed ++ [{ elId := customCssId, content := css }]
  else removed

/-- The contents of the active override elements (those carrying the fixed
identifier), in document order. -/
def activeOverrides (dom : List StyleEl) : List String :=
  (dom.filter (fun e => e.elId == customCssId)).map (fun e => e.content)

/-- Lines 166–169 of `saveDesignSettings`: the style applicator is invoked
only when the in-memory `custom_css` field is truthy. -/
def saveApplyCss (s : Obj) (dom : List StyleEl) : List StyleEl :=
  match s "custom_css" with
  | some css => if css != "" then updateCustomCSS css dom else dom
  | none => dom

/-! ## Upload path (`handleImageUpload`, lines 71–130) -/

/-- The fields of the chosen `File` the handler reads. -/
structure UploadFile where
  name : String
  type : String
  size : Nat

/-- How far `handleImageUpload` gets before returning: either one of the
early validation exits, or the call into the blob store with the built path. -/
inductive UploadStep where
  | noFile : UploadStep
  | invalidType : UploadStep
  | fileTooLarge : UploadStep
  | storageUpload (path : String) : UploadStep
deriving DecidableEq

/-- The function `handleImageUpload` up to the first blob-store call; `now` stands for
`Date.now()`. -/
def handleImageUpload (file : Option UploadFile) (now : Nat) : UploadStep :=
  match file with
  | none => .noFile
  | some f =>
    if ¬ (f.type.startsWith "image/") then .invalidType
    else if f.size > 5 * 1024 * 1024 then .fileTooLarge
    else
      let fileExt := (f.name.splitOn ".").getLastD ""
      .storageUpload ("design/" ++ ("hero-image-" ++ toString now ++ "." ++ fileExt))

/-- Whether the outcome reaches the blob store adapter. -/
def invokesStore : UploadStep → Bool
  | .storageUpload _ => true
  | _ => false

/-! ## Concrete records used to instantiate the theorems -/

/-- A settings object whose only defined field is an empty `server_name`. -/
def sServerEmpty : Obj := fun k => if k = "server_name" then some "" else none

/-- A settings object with a populated `server_name` and `primary_color`. -/
def sFoo : Obj := fun k =>
  if k = "server_name" then some "Foo"
  else if k = "primary_color" then some "#123456" else none

/-- A settings object whose only defined field is an empty `custom_css`. -/
def sEmptyCss : Obj := fun k => if k = "custom_css" then some "" else none

/-- A stored `general_settings` value predating a save. -/
def gOld : Obj := fun k => if k = "server_name" then some "Old" else none

/-- A store already holding a `general_settings` row. -/
def storeWithGeneral : SettingsStore := fun k =>
  if k = "general_settings" then some (gOld, 5) else none

/-- A `general_settings` value with the two whitelisted fields. -/
def generalFoo : Obj := fun k =>
  if k = "server_name" then some "Foo"
  else if k = "welcome_message" then some "Hi" else none

/-- A `general_settings` value that also carries an unrelated key. -/
def generalExtra : Obj := fun k =>
  if k = "server_name" then some "Foo"
  else if k = "welcome_message" then some "Hi"
  else if k = "extra_field" then some "ignored" else none

/-- A `design_settings` value that, against convention, carries a
`server_name` key. -/
def designEvil : Obj := fun k => if k = "server_name" then some "EVIL" else none

/-- A conventional `design_settings` value. -/
def designOnly : Obj := fun k => if k = "primary_color" then some "#123456" else none

/-- A six-megabyte image file. -/
def sixMbPng : UploadFile :=
  { name := "big.png", type := "image/png", size := 6 * 1024 * 1024 }

/-! ## Style applicator lemmas -/

theorem activeOverrides_nil : activeOverrides [] = [] := rfl

theorem activeOverrides_cons (e : StyleEl) (l : List StyleEl) :
    activeOverrides (e :: l) =
      if e.elId == customCssId then e.content :: activeOverrides l
      else activeOverrides l := by
  simp only [activeOverrides, List.filter_cons]
  split <;> simp

theorem activeOverrides_append (l1 l2 : List StyleEl) :
    activeOverrides (l1 ++ l2) = activeOverrides l1 ++ activeOverrides l2 := by
  simp [activeOverrides]

theorem activeOverrides_removeFirst (dom : List StyleEl)
    (h : (activeOverrides dom).length ≤ 1) :
    activeOverrides (removeFirstWithId dom customCssId) = [] := by
  induction dom with
  | nil => rfl
  | cons e rest ih =>
    rw [activeOverrides_cons] at h
    rw [removeFirstWithId]
    by_cases he : e.elId == customCssId
    · rw [if_pos he] at h ⊢
      simp only [List.length_cons] at h
      exact List.length_eq_zero.mp (by omega)
    · rw [if_neg he] at h ⊢
      rw [activeOverrides_cons, if_neg he]
      exact ih h

theorem updateCustomCSS_spec (css : String) (dom : List StyleEl)
    (h : (activeOverrides dom).length ≤ 1) :
    activeOverrides (updateCustomCSS css dom) =
      if jsTrim css = "" then [] else [css] := by
  have hrem := activeOverrides_removeFirst dom h
  by_cases hc : jsTrim css = ""
  · simp [updateCustomCSS, hc, hrem]
  · have hstep : updateCustomCSS css dom =
        removeFirstWithId dom customCssId ++ [{ elId := customCssId, content := css }] := by
      simp [updateCustomCSS, hc]
    rw [hstep, activeOverrides_append, hrem, if_neg hc]
    simp [activeOverrides]

theorem updateCustomCSS_le_one (css : String) (dom : List StyleEl)
    (h : (activeOverrides dom).length ≤ 1) :
    (activeOverrides (updateCustomCSS css dom)).length ≤ 1 := by
  rw [updateCustomCSS_spec css dom h]
  split <;> simp

theorem foldl_updateCustomCSS_le_one (xs : List String) (dom : List StyleEl)
    (h : (activeOverrides dom).length ≤ 1) :
    (activeOverrides (xs.foldl (fun acc c => updateCustomCSS c acc) dom)).length ≤ 1 := by
  induction xs generalizing dom with
  | nil => exact h
  | cons x xs ih => exact ih _ (updateCustomCSS_le_one x dom h)

/-- C5: for a string whose trimmed form is non-empty, applying the custom-CSS
update — once or twice in a row — leaves exactly one active override, carrying
the fixed identifier and the latest content; and any sequence of updates keeps
at most one override active. -/
theorem updateCustomCSS_single_override (dom : List StyleEl) (x : String)
    (hdom : (activeOverrides dom).length ≤ 1) (hx : jsTrim x ≠ "") :
    activeOverrides (updateCustomCSS x dom) = [x] ∧
    activeOverrides (updateCustomCSS x (updateCustomCSS x dom)) = [x] ∧
    ∀ xs : List String,
      (activeOverrides (xs.foldl (fun acc c => updateCustomCSS c acc) dom)).length ≤ 1 := by
  have h1 : activeOverrides (updateCustomCSS x dom) = [x] := by
    rw [updateCustomCSS_spec x dom hdom, if_neg hx]
  refine ⟨h1, ?_, fun xs => foldl_updateCustomCSS_le_one xs dom hdom⟩
  have h2 : (activeOverrides (updateCustomCSS x dom)).length ≤ 1 := by
    rw [h1]
    exact Nat.le_refl 1
  rw [updateCustomCSS_spec x _ h2, if_neg hx]

theorem updateCustomCSS_single_override_witness :
    activeOverrides
      (updateCustomCSS "body color red" (updateCustomCSS "body color red" [])) =
      ["body color red"] :=
  (updateCustomCSS_single_override [] "body color red" (by decide) (by decide)).2.1

/-- C6: applying an empty or whitespace-only string removes any previously
installed override and installs no new one, so after a blank apply following
any prior apply there are zero active overrides. -/
theorem updateCustomCSS_blank_clears (dom : List StyleEl) (x y : String)
    (hdom : (activeOverrides dom).length ≤ 1) (hy : jsTrim y = "") :
    activeOverrides (updateCustomCSS y dom) = [] ∧
    activeOverrides (updateCustomCSS y (updateCustomCSS x dom)) = [] := by
  constructor
  · rw [updateCustomCSS_spec y dom hdom, if_pos hy]
  · rw [updateCustomCSS_spec y _ (updateCustomCSS_le_one x dom hdom), if_pos hy]

theorem updateCustomCSS_blank_clears_witness :
    activeOverrides (updateCustomCSS "" (updateCustomCSS "body color red" [])) = [] :=
  (updateCustomCSS_blank_clears [] "body color red" "" (by decide) (by decide)).2

/-- C7: a successful fetch that returns no rows loads the empty settings
object; any successful fetch loads without error; only a failing fetch call
yields a load error, which is passed through. -/
theorem fetchDesignSettings_errors :
    fetchDesignSettings (Except.ok []) = Except.ok emptyObj ∧
    (∀ data : List (String × Obj), ∃ s, fetchDesignSettings (Except.ok data) = Except.ok s) ∧
    (∀ e : String, fetchDesignSettings (Except.error e) = Except.error e) :=
  ⟨rfl, fun data => ⟨mergeData data, rfl⟩, fun _ => rfl⟩

/-- C9: an upload whose payload exceeds the 5MB ceiling or whose content type
is not an image is rejected by one of the validation exits, and the blob store
is never invoked for it. -/
theorem handleImageUpload_rejects_before_store (f : UploadFile) (now : Nat)
    (h : 5 * 1024 * 1024 < f.size ∨ ¬ f.type.startsWith "image/") :
    (handleImageUpload (some f) now = UploadStep.invalidType ∨
     handleImageUpload (some f) now = UploadStep.fileTooLarge) ∧
    invokesStore (handleImageUpload (some f) now) = false := by
  cases ht : f.type.startsWith "image/" with
  | false => simp [handleImageUpload, ht, invokesStore]
  | true =>
    have hs : 5 * 1024 * 1024 < f.size := by
      rcases h with h | h
      · exact h
      · exact absurd ht h
    simp [handleImageUpload, ht, hs, invokesStore]

theorem handleImageUpload_rejects_before_store_witness :
    (handleImageUpload (some sixMbPng) 0 = UploadStep.invalidType ∨
     handleImageUpload (some sixMbPng) 0 = UploadStep.fileTooLarge) ∧
    invokesStore (handleImageUpload (some sixMbPng) 0) = false :=
  handleImageUpload_rejects_before_store sixMbPng 0 (Or.inl (by decide))

/-- C10: the save path invokes the style applicator only when the in-memory
`custom_css` field is truthy; saving with an empty or absent `custom_css`
leaves the document — and hence any installed override — unchanged. -/
theorem saveApplyCss_only_when_truthy (s : Obj) (dom : List StyleEl) :
    (truthy (s "custom_css") = false → saveApplyCss s dom = dom) ∧
    (∀ css, s "custom_css" = some css → css ≠ "" →
      saveApplyCss s dom = updateCustomCSS css dom) := by
  constructor
  · intro h
    unfold saveApplyCss
    cases hc : s "custom_css" with
    | none => rfl
    | some v =>
      rw [hc] at h
      simp [truthy] at h
      simp [h]
  · intro css hc hne
    unfold saveApplyCss
    rw [hc]
    simp [hne]

theorem saveApplyCss_only_when_truthy_witness :
    saveApplyCss sEmptyCss [{ elId := customCssId, content := "body color red" }] =
      [{ elId := customCssId, content := "body color red" }] :=
  (saveApplyCss_only_when_truthy sEmptyCss
    [{ elId := customCssId, content := "body color red" }]).1 (by decide)

/-! ## Reconciler theorems -/

/-- C3 counterexample: a settings object whose `server_name` is the defined
empty string has that field deleted from the design document while the general
upsert is skipped (the empty string is falsy), so the field is written to
neither document. -/
theorem saveUpserts_drops_empty_server_name :
    sServerEmpty "server_name" = some "" ∧
    (saveUpserts sServerEmpty 0).countP
      (fun r => (r.setting_value "server_name").isSome) = 0 := by
  decide

/-- C3 (amended): the split places neither `server_name` nor
`welcome_message` into the design document, places no other field into the
general document, and every field of `s` holding a non-empty value lands in
exactly one of the issued documents. -/
theorem saveUpserts_partition (s : Obj) (now : Nat) :
    (∀ r ∈ saveUpserts s now, r.setting_key = "design_settings" →
      r.setting_value "server_name" = none ∧
      r.setting_value "welcome_message" = none) ∧
    (∀ r ∈ saveUpserts s now, r.setting_key = "general_settings" →
      ∀ k, k ≠ "server_name" → k ≠ "welcome_message" → r.setting_value k = none) ∧
    (∀ k v, s k = some v → v ≠ "" →
      (saveUpserts s now).countP (fun r => (r.setting_value k).isSome) = 1) := by
  refine ⟨?_, ?_, ?_⟩
  · intro r hr hkey
    rw [saveUpserts] at hr
    rcases List.mem_cons.mp hr with h | h
    · subst h
      constructor <;> simp [designDoc]
    · split at h
      · rw [List.mem_singleton] at h
        subst h
        simp at hkey
      · exact absurd h (List.not_mem_nil r)
  · intro r hr hkey
    rw [saveUpserts] at hr
    rcases List.mem_cons.mp hr with h | h
    · subst h
      simp at hkey
    · split at h
      · rw [List.mem_singleton] at h
        subst h
        intro k hk1 hk2
        simp [generalDoc, hk1, hk2]
      · exact absurd h (List.not_mem_nil r)
  · intro k v hkv hv
    have htr : truthy (s k) = true := by
      rw [hkv]
      simp [truthy, hv]
    by_cases hk1 : k = "server_name"
    · subst hk1
      simp [saveUpserts, List.countP_cons, designDoc, generalDoc, hkv, truthy, hv]
    · by_cases hk2 : k = "welcome_message"
      · subst hk2
        simp [saveUpserts, List.countP_cons, designDoc, generalDoc, hkv, truthy, hv]
      · cases hc : (truthy (s "server_name") || truthy (s "welcome_message")) with
        | true =>
          simp [saveUpserts, hc, List.countP_cons, designDoc, generalDoc, hk1, hk2, hkv]
        | false =>
          simp [saveUpserts, hc, List.countP_cons, designDoc, hk1, hk2, hkv]

theorem saveUpserts_partition_witness :
    (saveUpserts sFoo 0).countP
      (fun r => (r.setting_value "server_name").isSome) = 1 :=
  (saveUpserts_partition sFoo 0).2.2 "server_name" "Foo" (by decide) (by decide)

/-- C4: when `server_name` and `welcome_message` are both empty or absent, no
upsert is issued under the `general_settings` key — the stored row is left
unchanged for every starting store — while the `design_settings` upsert is
still issued. -/
theorem saveUpserts_no_general_when_blank (s : Obj) (now : Nat)
    (hsn : s "server_name" = none ∨ s "server_name" = some "")
    (hwm : s "welcome_message" = none ∨ s "welcome_message" = some "") :
    (∀ r ∈ saveUpserts s now, r.setting_key ≠ "general_settings") ∧
    (∃ r ∈ saveUpserts s now, r.setting_key = "design_settings" ∧
      r.setting_value = designDoc s) ∧
    (∀ store : SettingsStore,
      applyUpserts store (saveUpserts s now) "general_settings" =
        store "general_settings") := by
  have h1 : truthy (s "server_name") = false := by
    rcases hsn with h | h <;> simp [h, truthy]
  have h2 : truthy (s "welcome_message") = false := by
    rcases hwm with h | h <;> simp [h, truthy]
  have hlist : saveUpserts s now =
      [{ setting_key := "design_settings", setting_value := designDoc s,
         updated_at := now }] := by
    simp [saveUpserts, h1, h2]
  refine ⟨?_, ?_, ?_⟩
  · intro r hr
    rw [hlist, List.mem_singleton] at hr
    subst hr
    simp
  · refine ⟨⟨"design_settings", designDoc s, now⟩, ?_, rfl, rfl⟩
    rw [hlist]
    exact List.mem_singleton.mpr rfl
  · intro store
    rw [hlist]
    simp [applyUpserts]

theorem saveUpserts_no_general_when_blank_witness :
    applyUpserts storeWithGeneral (saveUpserts emptyObj 0) "general_settings" =
      storeWithGeneral "general_settings" :=
  (saveUpserts_no_general_when_blank emptyObj 0 (Or.inl rfl) (Or.inl rfl)).2.2
    storeWithGeneral

/-- C1: saving a settings object into an empty store (splitting it into the
two documents) and then loading — with the two rows arriving in either
order — yields a settings object that agrees with the original on every
populated (non-empty, defined) field. -/
theorem save_load_roundTrip (s : Obj) (now : Nat) (keys : List String)
    (hkeys : keys = ["design_settings", "general_settings"] ∨
             keys = ["general_settings", "design_settings"])
    (k v : String) (hkv : s k = some v) (hv : v ≠ "") :
    mergeData (fetchDocs (applyUpserts emptyStore (saveUpserts s now)) keys) k =
      some v := by
  have htr : truthy (s k) = true := by
    rw [hkv]
    simp [truthy, hv]
  cases hc : (truthy (s "server_name") || truthy (s "welcome_message")) with
  | false =>
    have hk1 : k ≠ "server_name" := by
      intro h
      rw [h] at htr
      simp [htr] at hc
    have hk2 : k ≠ "welcome_message" := by
      intro h
      rw [h] at htr
      simp [htr] at hc
    rcases hkeys with rfl | rfl <;>
      simp [fetchDocs, applyUpserts, saveUpserts, hc, emptyStore, mergeData,
        mergeStep, objAssign, designDoc, emptyObj, hk1, hk2, hkv]
  | true =>
    by_cases hk1 : k = "server_name"
    · subst hk1
      rcases hkeys with rfl | rfl <;>
        simp [fetchDocs, applyUpserts, saveUpserts, hc, emptyStore, mergeData,
          mergeStep, objAssign, generalDoc, designDoc, emptyObj, hkv, truthy, hv]
    · by_cases hk2 : k = "welcome_message"
      · subst hk2
        rcases hkeys with rfl | rfl <;>
          simp [fetchDocs, applyUpserts, saveUpserts, hc, emptyStore, mergeData,
            mergeStep, objAssign, generalDoc, designDoc, emptyObj, hkv, truthy, hv]
      · rcases hkeys with rfl | rfl <;>
          simp [fetchDocs, applyUpserts, saveUpserts, hc, emptyStore, mergeData,
            mergeStep, objAssign, generalDoc, designDoc, emptyObj, hk1, hk2, hkv]

theorem save_load_roundTrip_witness :
    mergeData (fetchDocs (applyUpserts emptyStore (saveUpserts sFoo 0))
      ["design_settings", "general_settings"]) "primary_color" = some "#123456" :=
  save_load_roundTrip sFoo 0 _ (Or.inl rfl) "primary_color" "#123456" (by decide)
    (by decide)

/-- C2 counterexample: when the `general_settings` row arrives first and the
`design_settings` row — against convention — carries a `server_name` key, the
design value overwrites the general one, so the unified `server_name` differs
from the value held by the `general_settings` document. -/
theorem mergeData_order_dependent :
    generalFoo "server_name" = some "Foo" ∧
    mergeData [("general_settings", generalFoo), ("design_settings", designEvil)]
      "server_name" = some "EVIL" ∧
    mergeData [("general_settings", generalFoo), ("design_settings", designEvil)]
      "server_name" ≠ generalFoo "server_name" := by
  decide

/-- C2 (amended): provided the `design_settings` document carries no
`server_name` or `welcome_message` key (the disjoint-key convention), the
merged `server_name` and `welcome_message` equal the values held by the
`general_settings` document in either arrival order; with colliding
keys the later-processed document wins instead. -/
theorem mergeData_general_fields (dd gd : Obj)
    (h1 : dd "server_name" = none) (h2 : dd "welcome_message" = none)
    (data : List (String × Obj))
    (hdata : data = [("design_settings", dd), ("general_settings", gd)] ∨
             data = [("general_settings", gd), ("design_settings", dd)]) :
    mergeData data "server_name" = gd "server_name" ∧
    mergeData data "welcome_message" = gd "welcome_message" := by
  rcases hdata with rfl | rfl <;>
    exact ⟨by simp [mergeData, mergeStep, objAssign, emptyObj, h1, h2],
           by simp [mergeData, mergeStep, objAssign, emptyObj, h1, h2]⟩

theorem mergeData_general_fields_witness :
    mergeData [("general_settings", generalFoo), ("design_settings", designOnly)]
      "server_name" = generalFoo "server_name" :=
  (mergeData_general_fields designOnly generalFoo (by decide) (by decide) _
    (Or.inr rfl)).1

/-- C8 counterexample: when the `design_settings` row arrives first and
carries a `server_name` key, that key is not copied verbatim into the unified
result — the `general_settings` overlay overwrites it. -/
theorem mergeData_design_key_overwritten :
    designEvil "server_name" = some "EVIL" ∧
    mergeData [("design_settings", designEvil), ("general_settings", generalExtra)]
      "server_name" = some "Foo" ∧
    mergeData [("design_settings", designEvil), ("general_settings", generalExtra)]
      "server_name" ≠ designEvil "server_name" := by
  decide

/-- C8 (amended): merging the design row and then the general row copies from
the `general_settings` document only `server_name` and `welcome_message`,
ignoring every other key (such as `extra_field`), and copies every key of the
`design_settings` document other than those two verbatim (those two, if
present, are overwritten by the general overlay). -/
theorem mergeData_general_filtered (dd gd : Obj) (k : String)
    (hk1 : k ≠ "server_name") (hk2 : k ≠ "welcome_message") :
    mergeData [("design_settings", dd), ("general_settings", gd)] k = dd k ∧
    mergeData [("design_settings", dd), ("general_settings", gd)] "server_name" =
      gd "server_name" ∧
    mergeData [("design_settings", dd), ("general_settings", gd)] "welcome_message" =
      gd "welcome_message" := by
  refine ⟨?_, ?_, ?_⟩
  · cases hd : dd k <;>
      simp [mergeData, mergeStep, objAssign, emptyObj, hk1, hk2, hd]
  · simp [mergeData, mergeStep, objAssign, emptyObj]
  · simp [mergeData, mergeStep, objAssign, emptyObj]

theorem mergeData_general_filtered_witness :
    mergeData [("design_settings", designOnly), ("general_settings", generalExtra)]
      "extra_field" = none :=
  ((mergeData_general_filtered designOnly generalExtra "extra_field"
    (by decide) (by decide)).1).trans (by decide)

end DesignManager
